import Mathlib

/-!
Shallow embedding of the NRL catalog client
(obspy/clients/nrl/client.py): the response merger (`get_response`),
the lazy catalog dictionary (`NRLDict.__getitem__`), the remote
download cache (`RemoteNRL._download`), the index parser
(`NRL._parse_ini` / `NRL._choose` / `NRL._clean_str`) and the
key-sequence resolver (`NRL.get_datalogger_resp`).

Python dictionaries are modelled as association lists, Python
exceptions as explicit error values, and the external collaborators
(HTTP GET, the RESP parser, `recalculate_overall_sensitivity`) as
function parameters.
-/

namespace NRLSpec

/-! ### Generic association-list operations (Python `dict` model) -/

/-- Python `d[k] = v` on a `dict`: update the value when the key is
present, append a fresh entry otherwise (insertion order preserved). -/
def dictSet {β : Type} : List (String × β) → String → β → List (String × β)
  | [], n, v => [(n, v)]
  | (k, w) :: rest, n, v =>
    if k == n then (n, v) :: rest else (k, w) :: dictSet rest n v

/-! ### Response merger: `NRL.get_response`

The two resolved responses have already been parsed by the external
RESP parser into objects carrying an ordered stage list and an
overall-sensitivity value.  `recalculate_overall_sensitivity` is an
external collaborator: it may succeed with a new sensitivity, raise
`ValueError` (leaving some partial sensitivity value on the mutated
object), or raise any other exception. -/

/-- A parsed single-channel response: ordered stage list plus the
overall sensitivity value. -/
structure PResponse (α σ : Type) where
  response_stages : List α
  sensitivity : σ
deriving DecidableEq, Repr

/-- Outcome of `recalculate_overall_sensitivity` on the spliced stage
list: success, a `ValueError` (with whatever sensitivity value the
failed attempt left behind), or an uncaught exception of another type. -/
inductive RecalcResult (σ ε : Type) where
  | ok : σ → RecalcResult σ ε
  | valueError : σ → RecalcResult σ ε
  | raise : ε → RecalcResult σ ε
deriving DecidableEq, Repr

/-- Errors escaping `get_response`: `IndexError` from `pop(0)` /
`[0]` on an empty stage list, or an uncaught exception of the
recalculation step. -/
inductive MergeErr (ε : Type) where
  | indexError : MergeErr ε
  | uncaught : ε → MergeErr ε
deriving DecidableEq, Repr

/-- `NRL.get_response` after both RESP texts are parsed: pop stage 0
of the data-logger, insert stage 0 of the sensor at position 0, then
recalculate the overall sensitivity, turning a `ValueError` into one
warning.  Returns the combined response together with the number of
warnings emitted. -/
def get_response {α σ ε : Type} (recalc : List α → σ → RecalcResult σ ε)
    (dl_resp sensor_resp : PResponse α σ) :
    Except (MergeErr ε) (PResponse α σ × Nat) :=
  match dl_resp.response_stages with
  | [] => .error .indexError
  | _ :: dlRest =>
    match sensor_resp.response_stages with
    | [] => .error .indexError
    | s0 :: _ =>
      let stages := s0 :: dlRest
      match recalc stages dl_resp.sensitivity with
      | .ok s2 => .ok (⟨stages, s2⟩, 0)
      | .valueError s2 => .ok (⟨stages, s2⟩, 1)
      | .raise e => .error (.uncaught e)

/-! ### Lazy catalog tree: `NRLDict`, `NRLPath` and `NRLDict.__getitem__` -/

/-- A value stored in an `NRLDict` slot: an `NRLPath` (a not yet
parsed reference to another index file), a leaf tuple
`(description, resp_path)`, or an already expanded nested `NRLDict`
(entries plus its optional `_question`). -/
inductive NRLValue where
  | pathRef : String → NRLValue
  | leaf : String → String → NRLValue
  | node : List (String × NRLValue) → Option String → NRLValue

/-- The contents of an `NRLDict`: its ordered entries and its
`_question` attribute. -/
structure NRLDictData where
  entries : List (String × NRLValue)
  question : Option String

/-- Python exceptions raised by dynamic dispatch during key-sequence
resolution: `KeyError` (missing dict key, including the integer index
`1` applied to a dict), `TypeError` (a tuple or string indexed with a
string key), `IndexError` (string index out of range). -/
inductive PyErr where
  | keyError
  | typeError
  | indexError
deriving DecidableEq, Repr

/-- `NRLDict.__getitem__`: look the label up; if the stored value is a
not yet parsed `NRLPath`, expand it via `_parse_ini`, store the
expansion back into the dict, and return it.  The third component
counts `_parse_ini` invocations (each performs one backend fetch);
`none` models `KeyError`. -/
def getItem (parse : String → NRLDictData)
    (d : List (String × NRLValue)) (name : String) :
    Option (NRLValue × List (String × NRLValue) × Nat) :=
  match d.lookup name with
  | none => none
  | some (.pathRef p) =>
    let pr := parse p
    let v2 := NRLValue.node pr.entries pr.question
    some (v2, dictSet d name v2, 1)
  | some (.leaf de re) => some (.leaf de re, d, 0)
  | some (.node es q) => some (.node es q, d, 0)

/-! ### Response resolver: `NRL.get_datalogger_resp` / `get_sensor_resp` -/

/-- The loop `for key in keys: value = value[key]` of
`get_datalogger_resp` / `get_sensor_resp`.  Indexing an `NRLDict`
goes through `NRLDict.__getitem__`; indexing a leaf tuple or an
`NRLPath` string with a string key raises `TypeError`. -/
def resolveKeys (parse : String → NRLDictData) :
    NRLValue → List String → Except PyErr NRLValue
  | v, [] => .ok v
  | .node entries _, k :: ks =>
    match getItem parse entries k with
    | none => .error .keyError
    | some (v, _, _) => resolveKeys parse v ks
  | .leaf _ _, _ :: _ => .error .typeError
  | .pathRef _, _ :: _ => .error .typeError

/-- The final `value[1]` of `get_datalogger_resp` /
`get_sensor_resp`: on a leaf tuple it selects the resp path; on an
`NRLDict` the integer key `1` is absent (`KeyError`); on an `NRLPath`
string it is Python string indexing. -/
def finalIndex : NRLValue → Except PyErr String
  | .leaf _ resp => .ok resp
  | .node _ _ => .error .keyError
  | .pathRef p =>
    match p.toList with
    | _ :: c :: _ => .ok (String.mk [c])
    | _ => .error .indexError

/-- `get_datalogger_resp` / `get_sensor_resp` up to the point where the
resolved resp location is handed to `_read_resp`: walk the tree by the
key sequence, then take index `1` of the reached value. -/
def get_resp_path (parse : String → NRLDictData)
    (top : NRLDictData) (keys : List String) : Except PyErr String :=
  match resolveKeys parse (.node top.entries top.question) keys with
  | .error e => .error e
  | .ok v => finalIndex v

/-! ### Remote backend: `RemoteNRL._download` and `_remote_nrl_cache` -/

/-- Result of `requests.get(url)`: either a raised network exception,
or an HTTP response with a status code and a body text (`requests`
does not raise on 4xx/5xx statuses). -/
inductive HttpResult where
  | failure
  | response : Nat → String → HttpResult
deriving DecidableEq, Repr

/-- `RemoteNRL._download`: consult `_remote_nrl_cache` (modelled as the
association list threaded through); on a miss perform the GET and
cache `response.text`.  The `Nat` counts GETs performed; `.error ()`
models a propagated network exception. -/
def _download (get : String → HttpResult) (cache : List (String × String))
    (url : String) : Except Unit (String × List (String × String) × Nat) :=
  match cache.lookup url with
  | some t => .ok (t, cache, 0)
  | none =>
    match get url with
    | .failure => .error ()
    | .response _ text => .ok (text, dictSet cache url text, 1)

/-- `n` successive `_download` calls for the same URL, accumulating the
returned texts and the total number of GETs performed. -/
def downloadN (get : String → HttpResult) (cache : List (String × String))
    (url : String) : Nat → Except Unit (List String × List (String × String) × Nat)
  | 0 => .ok ([], cache, 0)
  | n + 1 =>
    match _download get cache url with
    | .error e => .error e
    | .ok (t, c1, f1) =>
      match downloadN get c1 url n with
      | .error e => .error e
      | .ok (ts, c2, f2) => .ok (t :: ts, c2, f1 + f2)

/-- `LocalNRL._read_resp`: open the file and read it; any I/O error of
`open` (e.g. a missing file) propagates unchanged — the body adds no
handling. -/
def _read_resp_local {ι : Type} (openRead : String → Except ι String)
    (path : String) : Except ι String :=
  openRead path

/-! ### Quote stripping: `NRL._clean_str` -/

/-- The single-quote character. -/
def singleQuote : Char := Char.ofNat 39

/-- The double-quote character. -/
def doubleQuote : Char := Char.ofNat 34

/-- The character set of Python `strip(single-quote double-quote)`. -/
def quoteChars : List Char := [singleQuote, doubleQuote]

/-- Python `str.strip(chars)`: drop characters of the set from the
front and from the back, repeatedly until both ends are clean. -/
def stripChars (cs : List Char) (l : List Char) : List Char :=
  ((l.dropWhile (fun ch => decide (ch ∈ cs))).reverse.dropWhile
    (fun ch => decide (ch ∈ cs))).reverse

/-- `NRL._clean_str`: strip single and double quotes from both ends. -/
def _clean_str (s : String) : String :=
  String.mk (stripChars quoteChars s.toList)

/-- Modelled from the spec (for comparison with `_clean_str` only):
remove at most a single matched pair of one leading and one trailing
quote character, leaving nested or repeated quoting and unmatched
one-sided quotes in place. -/
def clean_str_spec (s : String) : String :=
  match s.toList with
  | [] => s
  | c :: rest =>
    if c ∈ quoteChars ∧ rest ≠ [] ∧ s.toList.getLast? = some c then
      String.mk rest.dropLast
    else s

/-! ### Index parser: `NRL._choose` and `NRL._parse_ini` -/

/-- Lexicographic comparison of character lists by code point. -/
def charListLe : List Char → List Char → Bool
  | [], _ => true
  | _ :: _, [] => false
  | a :: as, b :: bs =>
    if a.toNat < b.toNat then true
    else if b.toNat < a.toNat then false
    else charListLe as bs

/-- Python string comparison (lexicographic by code point). -/
def strLe (a b : String) : Bool := charListLe a.toList b.toList

/-- ASCII lower-casing of one character (Python `str.lower` on the
ASCII section names of the catalog). -/
def lowerChar (c : Char) : Char :=
  if 65 ≤ c.toNat ∧ c.toNat ≤ 90 then Char.ofNat (c.toNat + 32) else c

/-- Python `str.lower` on ASCII strings. -/
def strLower (s : String) : String := String.mk (s.toList.map lowerChar)

/-- Insert a string into a sorted list (ascending). -/
def insertSorted (x : String) : List String → List String
  | [] => [x]
  | y :: ys => if strLe x y then x :: y :: ys else y :: insertSorted x ys

/-- Python `sorted` on a list of strings (insertion sort). -/
def sortStrs : List String → List String
  | [] => []
  | x :: xs => insertSorted x (sortStrs xs)

/-- One section of an index file as configparser exposes it: its name
and its ordered option name/value pairs. -/
structure IniSection where
  name : String
  opts : List (String × String)

/-- Errors of `_parse_ini`: the `NotImplementedError` raised on an
unexpected section shape, the `UnboundLocalError` that `_choose` would
raise when a section has neither a path nor a resp option, and the
configparser `NoOptionError` of a failed `get`. -/
inductive ParseErr where
  | notImplemented : String → ParseErr
  | unboundLocal
  | noOption
deriving DecidableEq, Repr

/-- `NRL._choose`: read the section's path option if present, else its
resp option (`none` models the `UnboundLocalError` when neither is
present), strip quotes, and join the result onto the directory of the
current index file.  `join` is the backend's `_join` and `dirname` is
`os.path.dirname`. -/
def _choose (join : String → String → String) (dirname : String → String)
    (opts : List (String × String)) (path : String) : Option String :=
  let options := opts.map Prod.fst
  let newpath? :=
    if "path" ∈ options then opts.lookup "path"
    else if "resp" ∈ options then opts.lookup "resp"
    else none
  newpath?.map (fun np => join (dirname path) (_clean_str np))

/-- One iteration of the section loop of `NRL._parse_ini`: classify
the section by its sorted option-name list and update the dict being
built. -/
def parseSection (join : String → String → String) (dirname : String → String)
    (path : String) (d : NRLDictData) (sec : IniSection) :
    Except ParseErr NRLDictData :=
  let options := sortStrs (sec.opts.map Prod.fst)
  if strLower sec.name == "main" then
    if options = ["question"] ∨ options = ["detail", "question"] then
      match sec.opts.lookup "question" with
      | some q => .ok ⟨d.entries, some (_clean_str q)⟩
      | none => .error .noOption
    else
      .error (.notImplemented ("Unexpected structure of NRL file " ++ path))
  else if options = ["path"] then
    match _choose join dirname sec.opts path with
    | some p => .ok ⟨dictSet d.entries sec.name (.pathRef p), d.question⟩
    | none => .error .unboundLocal
  else if options = ["description", "resp"] ∨ options = ["descr", "resp"] ∨
      options = ["resp"] then
    let descr? : Except ParseErr String :=
      if "descr" ∈ options then
        match sec.opts.lookup "descr" with
        | some v => .ok v
        | none => .error .noOption
      else if "description" ∈ options then
        match sec.opts.lookup "description" with
        | some v => .ok v
        | none => .error .noOption
      else .ok "<no description>"
    match descr? with
    | .error e => .error e
    | .ok dsc =>
      match _choose join dirname sec.opts path with
      | some rp => .ok ⟨dictSet d.entries sec.name (.leaf (_clean_str dsc) rp), d.question⟩
      | none => .error .unboundLocal
  else
    .error (.notImplemented ("Unexpected structure of NRL file " ++ path))

/-- `NRL._parse_ini`: fold the section loop over the sections of the
index file at `path`, starting from an empty `NRLDict`. -/
def _parse_ini (join : String → String → String) (dirname : String → String)
    (path : String) (sections : List IniSection) : Except ParseErr NRLDictData :=
  sections.foldlM (parseSection join dirname path) ⟨[], none⟩

/-! ## Helper lemmas -/

theorem lookup_dictSet_self {β : Type} (d : List (String × β)) (k : String) (v : β) :
    (dictSet d k v).lookup k = some v := by
  induction d with
  | nil => simp [dictSet, List.lookup]
  | cons hd tl ih =>
    obtain ⟨k', w⟩ := hd
    by_cases h : k' = k
    · simp [dictSet, h, List.lookup]
    · have hb : (k' == k) = false := beq_eq_false_iff_ne.mpr h
      have hb2 : (k == k') = false := beq_eq_false_iff_ne.mpr (Ne.symm h)
      simp [dictSet, hb, List.lookup, hb2, ih]

theorem lookup_dictSet_ne {β : Type} (d : List (String × β)) (k k' : String) (v : β)
    (h : k' ≠ k) : (dictSet d k v).lookup k' = d.lookup k' := by
  have hb : (k' == k) = false := beq_eq_false_iff_ne.mpr h
  induction d with
  | nil => simp [dictSet, List.lookup, hb]
  | cons hd tl ih =>
    obtain ⟨k0, w⟩ := hd
    by_cases h0 : k0 = k
    · simp [dictSet, h0, List.lookup, hb]
    · have hb0 : (k0 == k) = false := beq_eq_false_iff_ne.mpr h0
      by_cases h1 : k0 = k'
      · simp [dictSet, hb0, List.lookup, h1, h, hb]
      · have hb1 : (k' == k0) = false := beq_eq_false_iff_ne.mpr (Ne.symm h1)
        simp [dictSet, hb0, List.lookup, hb1, ih]

theorem lookup_mem_of_mem_fst {β : Type} (d : List (String × β)) (k : String)
    (h : k ∈ d.map Prod.fst) : ∃ v, d.lookup k = some v := by
  induction d with
  | nil => simp at h
  | cons hd tl ih =>
    obtain ⟨k0, w⟩ := hd
    by_cases h0 : k0 = k
    · exact ⟨w, by simp [List.lookup, h0]⟩
    · have hb : (k == k0) = false := beq_eq_false_iff_ne.mpr (Ne.symm h0)
      have hm : k ∈ tl.map Prod.fst := by
        simp at h
        rcases h with h | h
        · exact absurd h.symm h0
        · simpa using h
      obtain ⟨v, hv⟩ := ih hm
      exact ⟨v, by simp [List.lookup, hb, hv]⟩

theorem mem_insertSorted (x y : String) (l : List String) :
    y ∈ insertSorted x l ↔ y = x ∨ y ∈ l := by
  induction l with
  | nil => simp [insertSorted]
  | cons z zs ih =>
    cases h : strLe x z with
    | true => simp [insertSorted, h]
    | false =>
      simp [insertSorted, h, ih]
      tauto

theorem mem_sortStrs (x : String) (l : List String) : x ∈ sortStrs l ↔ x ∈ l := by
  induction l with
  | nil => simp [sortStrs]
  | cons y ys ih => simp [sortStrs, mem_insertSorted, ih]

/-! ## Claim theorems -/

/-- C1: with sensor stage list `[S1, S2]` and data-logger stage list
`[D1, D2, D3]`, `get_response` (when the recalculation step does not
raise an uncaught exception) returns a combined response whose stage
list is exactly `[S1, D2, D3]`: data-logger stage 0 removed, sensor
stage 0 inserted at position 0, remaining data-logger stages preserved
in order. -/
theorem C1_merge_splice {α σ ε : Type} (recalc : List α → σ → RecalcResult σ ε)
    (S1 S2 D1 D2 D3 : α) (sS sD : σ)
    (h : ∀ e, recalc [S1, D2, D3] sD ≠ .raise e) :
    ∃ r w, get_response recalc ⟨[D1, D2, D3], sD⟩ ⟨[S1, S2], sS⟩ = .ok (r, w) ∧
      r.response_stages = [S1, D2, D3] := by
  cases hr : recalc [S1, D2, D3] sD with
  | ok s2 => exact ⟨⟨[S1, D2, D3], s2⟩, 0, by simp [get_response, hr], rfl⟩
  | valueError s2 => exact ⟨⟨[S1, D2, D3], s2⟩, 1, by simp [get_response, hr], rfl⟩
  | raise e => exact absurd hr (h e)

theorem C1_merge_splice_witness :
    ∃ r w, get_response
        (fun (_ : List Nat) (s : Nat) => (RecalcResult.ok s : RecalcResult Nat Unit))
        ⟨[10, 20, 30], 0⟩ ⟨[1, 2], 0⟩ = .ok (r, w) ∧
      r.response_stages = [1, 20, 30] :=
  C1_merge_splice _ 1 2 10 20 30 0 0 (fun e => by simp)

/-- C2: once both responses are resolved and the stage lists are
nonempty (splicing succeeds), a `ValueError` of the
sensitivity-recalculation step is caught: `get_response` still returns
the combined response with the spliced stage list and emits exactly
one warning; any other exception of the recalculation step propagates
uncaught. -/
theorem C2_recalc_valueError_nonfatal {α σ ε : Type}
    (recalc : List α → σ → RecalcResult σ ε) (dl_resp sensor_resp : PResponse α σ)
    (d0 : α) (dlRest : List α) (s0 : α) (sRest : List α)
    (hd : dl_resp.response_stages = d0 :: dlRest)
    (hs : sensor_resp.response_stages = s0 :: sRest) :
    (∀ s2, recalc (s0 :: dlRest) dl_resp.sensitivity = .valueError s2 →
      get_response recalc dl_resp sensor_resp = .ok (⟨s0 :: dlRest, s2⟩, 1)) ∧
    (∀ e, recalc (s0 :: dlRest) dl_resp.sensitivity = .raise e →
      get_response recalc dl_resp sensor_resp = .error (.uncaught e)) := by
  constructor <;> intro x hr <;> simp [get_response, hd, hs, hr]

theorem C2_recalc_valueError_nonfatal_witness :
    get_response
      (fun (_ : List Nat) (_ : Nat) => (RecalcResult.valueError 7 : RecalcResult Nat Unit))
      ⟨[10, 20], 0⟩ ⟨[1], 0⟩ = .ok (⟨[1, 20], 7⟩, 1) :=
  (C2_recalc_valueError_nonfatal _ ⟨[10, 20], 0⟩ ⟨[1], 0⟩ 10 [20] 1 [] rfl rfl).1 7 rfl

/-- C3: on a label bound to a not-yet-parsed `NRLPath`, the first
`__getitem__` parses the reference, stores the resulting expanded node
back into the dict, and returns it with one parser invocation; a
second `__getitem__` on the updated dict returns that identical
expanded node with zero parser invocations; and lookups of leaf or
already-expanded values never invoke the parser. -/
theorem C3_getitem_memoized (parse : String → NRLDictData)
    (d : List (String × NRLValue)) (name p de re : String)
    (es : List (String × NRLValue)) (q : Option String) :
    (d.lookup name = some (.pathRef p) →
      getItem parse d name =
        some (.node (parse p).entries (parse p).question,
          dictSet d name (.node (parse p).entries (parse p).question), 1) ∧
      getItem parse (dictSet d name (.node (parse p).entries (parse p).question)) name =
        some (.node (parse p).entries (parse p).question,
          dictSet d name (.node (parse p).entries (parse p).question), 0)) ∧
    (d.lookup name = some (.leaf de re) →
      getItem parse d name = some (.leaf de re, d, 0)) ∧
    (d.lookup name = some (.node es q) →
      getItem parse d name = some (.node es q, d, 0)) := by
  refine ⟨fun h => ⟨by simp [getItem, h], ?_⟩, fun h => by simp [getItem, h],
    fun h => by simp [getItem, h]⟩
  have h2 := lookup_dictSet_self d name
    (NRLValue.node (parse p).entries (parse p).question)
  simp [getItem, h2]

theorem C3_getitem_memoized_witness :
    (getItem (fun _ => ⟨[], some "q"⟩)
        [("A", .pathRef "x"), ("B", .leaf "d" "r")] "A" =
      some (.node [] (some "q"),
        [("A", .node [] (some "q")), ("B", .leaf "d" "r")], 1)) ∧
    (getItem (fun _ => ⟨[], some "q"⟩)
        [("A", .node [] (some "q")), ("B", .leaf "d" "r")] "A" =
      some (.node [] (some "q"),
        [("A", .node [] (some "q")), ("B", .leaf "d" "r")], 0)) ∧
    (getItem (fun _ => ⟨[], some "q"⟩)
        [("A", .pathRef "x"), ("B", .leaf "d" "r")] "B" =
      some (.leaf "d" "r", [("A", .pathRef "x"), ("B", .leaf "d" "r")], 0)) := by
  have h := C3_getitem_memoized (fun _ => ⟨[], some "q"⟩)
    [("A", .pathRef "x"), ("B", .leaf "d" "r")] "A" "x" "d" "r" [] none
  have h2 := C3_getitem_memoized (fun _ => ⟨[], some "q"⟩)
    [("A", .pathRef "x"), ("B", .leaf "d" "r")] "B" "x" "d" "r" [] none
  exact ⟨(h.1 rfl).1, (h.1 rfl).2, h2.2.1 rfl⟩

/-- Once the URL is cached, every further `_download` returns the
cached text with zero GETs and leaves the cache unchanged. -/
theorem downloadN_cached (get : String → HttpResult) (c : List (String × String))
    (url t : String) (n : Nat) (hc : c.lookup url = some t) :
    downloadN get c url n = .ok (List.replicate n t, c, 0) := by
  induction n with
  | zero => simp [downloadN]
  | succ m ih => simp [downloadN, _download, hc, ih, List.replicate_succ]

/-- C4: starting from any cache state without the URL, `n ≥ 1`
requests for that URL perform exactly one GET in total and all return
the text of that single GET; the cache afterwards holds that text
under the exact URL, and no existing cache entry is evicted or
changed. -/
theorem C4_download_cache (get : String → HttpResult) (c : List (String × String))
    (url : String) (st : Nat) (txt : String) (n : Nat)
    (hc : c.lookup url = none) (hget : get url = .response st txt) (hn : 1 ≤ n) :
    downloadN get c url n = .ok (List.replicate n txt, dictSet c url txt, 1) ∧
    (dictSet c url txt).lookup url = some txt ∧
    (∀ u t, c.lookup u = some t → (dictSet c url txt).lookup u = some t) := by
  refine ⟨?_, lookup_dictSet_self c url txt, ?_⟩
  · cases n with
    | zero => omega
    | succ m =>
      have h1 : _download get c url = .ok (txt, dictSet c url txt, 1) := by
        simp [_download, hc, hget]
      have h2 := downloadN_cached get (dictSet c url txt) url txt m
        (lookup_dictSet_self c url txt)
      simp [downloadN, h1, h2, List.replicate_succ]
  · intro u t hu
    have hne : u ≠ url := fun he => by rw [he, hc] at hu; exact Option.noConfusion hu
    rw [lookup_dictSet_ne c url u txt hne]
    exact hu

theorem C4_download_cache_witness :
    downloadN (fun _ => .response 200 "T") [("v", "old")] "u" 2 =
      .ok (["T", "T"], [("v", "old"), ("u", "T")], 1) ∧
    ([("v", "old"), ("u", "T")] : List (String × String)).lookup "v" = some "old" := by
  have h := C4_download_cache (fun _ => .response 200 "T") [("v", "old")] "u" 200 "T" 2
    rfl rfl (by decide)
  exact ⟨h.1, h.2.2 "v" "old" rfl⟩

/-- Walking an appended key sequence walks the first part, then the
second from wherever the first ended. -/
theorem resolveKeys_append (parse : String → NRLDictData) (v : NRLValue)
    (as bs : List String) :
    resolveKeys parse v (as ++ bs) =
      match resolveKeys parse v as with
      | .ok v2 => resolveKeys parse v2 bs
      | .error e => .error e := by
  induction as generalizing v with
  | nil => simp [resolveKeys]
  | cons a rest ih =>
    cases v with
    | node es q =>
      cases hg : getItem parse es a with
      | none => simp [resolveKeys, hg]
      | some r =>
        obtain ⟨v2, d2, n2⟩ := r
        simp [resolveKeys, hg, ih]
    | leaf de re => simp [resolveKeys]
    | pathRef p => simp [resolveKeys]

/-- C5 counterexample: on a branch of depth 2, a key sequence of
length 2 resolves, a shorter one fails with `KeyError` (the dict is
indexed with the integer `1`) and a longer one fails with `TypeError`
(the leaf tuple is indexed with a string key).  The two depth
mismatches raise different exception types, and the short one is the
very exception type raised for a missing label — there is no dedicated
path-mismatch error distinct from the missing-key error. -/
theorem C5_counterexample :
    get_resp_path (fun _ => ⟨[], none⟩)
        ⟨[("A", .node [("B", .leaf "d" "r")] none)], none⟩ ["A", "B"] = .ok "r" ∧
    get_resp_path (fun _ => ⟨[], none⟩)
        ⟨[("A", .node [("B", .leaf "d" "r")] none)], none⟩ ["A"] = .error .keyError ∧
    get_resp_path (fun _ => ⟨[], none⟩)
        ⟨[("A", .node [("B", .leaf "d" "r")] none)], none⟩ ["A", "B", "C"] =
      .error .typeError ∧
    get_resp_path (fun _ => ⟨[], none⟩)
        ⟨[("A", .node [("B", .leaf "d" "r")] none)], none⟩ ["Z"] = .error .keyError ∧
    PyErr.keyError ≠ PyErr.typeError :=
  ⟨rfl, rfl, rfl, rfl, by decide⟩

/-- C5 (amended): a key sequence shorter than the branch depth (the
walk ends on a still-nested dict) makes resolution fail with the
key-lookup error of indexing the dict with `1` — the same exception
type as a missing label — and a key sequence longer than the branch
depth (the walk reaches a leaf with keys remaining) makes it fail with
a type error; the key count must equal the branch depth for resolution
to succeed, but no dedicated path-mismatch error class distinguishes
the two cases. -/
theorem C5_depth_mismatch_amended (parse : String → NRLDictData) (top : NRLDictData)
    (keys keys2 : List String) (es : List (String × NRLValue)) (q : Option String)
    (de re k : String) (ks : List String) :
    (resolveKeys parse (.node top.entries top.question) keys = .ok (.node es q) →
      get_resp_path parse top keys = .error .keyError) ∧
    (resolveKeys parse (.node top.entries top.question) keys2 = .ok (.leaf de re) →
      get_resp_path parse top (keys2 ++ k :: ks) = .error .typeError) := by
  constructor
  · intro h
    simp [get_resp_path, h, finalIndex]
  · intro h
    have happ := resolveKeys_append parse (.node top.entries top.question) keys2 (k :: ks)
    rw [h] at happ
    simp [get_resp_path, happ, resolveKeys]

theorem C5_depth_mismatch_amended_witness :
    get_resp_path (fun _ => ⟨[], none⟩)
        ⟨[("A", .node [("B", .leaf "d" "r")] none)], none⟩ ["A"] = .error .keyError ∧
    get_resp_path (fun _ => ⟨[], none⟩)
        ⟨[("A", .node [("B", .leaf "d" "r")] none)], none⟩ (["A", "B"] ++ ["C"]) =
      .error .typeError := by
  have h := C5_depth_mismatch_amended (fun _ => ⟨[], none⟩)
    ⟨[("A", .node [("B", .leaf "d" "r")] none)], none⟩ ["A"] ["A", "B"]
    [("B", .leaf "d" "r")] none "d" "r" "C" []
  exact ⟨h.1 rfl, h.2 rfl⟩

/-- Stripping absorbs a leading character of the set. -/
theorem stripChars_cons_of_mem (cs : List Char) (c : Char) (l : List Char)
    (hc : c ∈ cs) : stripChars cs (c :: l) = stripChars cs l := by
  simp [stripChars, List.dropWhile_cons, hc]

/-- Stripping absorbs a trailing character of the set. -/
theorem stripChars_concat_of_mem (cs : List Char) (c : Char) (l : List Char)
    (hc : c ∈ cs) : stripChars cs (l ++ [c]) = stripChars cs l := by
  induction l with
  | nil => simp [stripChars, hc]
  | cons a rest ih =>
    by_cases ha : a ∈ cs
    · rw [List.cons_append, stripChars_cons_of_mem cs a _ ha, ih,
        stripChars_cons_of_mem cs a rest ha]
    · simp [stripChars, List.dropWhile_cons, ha, hc, List.reverse_append]

/-- A list whose two ends are outside the set is left unchanged. -/
theorem stripChars_eq_self (cs : List Char) (l : List Char)
    (hh : ∀ x, l.head? = some x → x ∉ cs)
    (hl : ∀ x, l.getLast? = some x → x ∉ cs) :
    stripChars cs l = l := by
  have h1 : l.dropWhile (fun ch => decide (ch ∈ cs)) = l := by
    cases l with
    | nil => rfl
    | cons a rest =>
      have ha : a ∉ cs := hh a rfl
      simp [List.dropWhile_cons, ha]
  rw [stripChars, h1]
  have h2 : l.reverse.dropWhile (fun ch => decide (ch ∈ cs)) = l.reverse := by
    cases hrev : l.reverse with
    | nil => rfl
    | cons a rest =>
      have hlast : l.getLast? = some a := by
        rw [← List.head?_reverse, hrev]
        rfl
      have ha : a ∉ cs := hl a hlast
      simp [List.dropWhile_cons, ha]
  rw [h2, List.reverse_reverse]

/-- C6 counterexample: on a doubly double-quoted input `_clean_str`
removes both pairs, and on a one-sided quote it removes the unmatched
quote; the single-matched-pair behaviour described by the claim
(`clean_str_spec`) disagrees with the code on the doubly quoted
input. -/
theorem C6_counterexample :
    _clean_str "\"\"x\"\"" = "x" ∧
    clean_str_spec "\"\"x\"\"" = "\"x\"" ∧
    _clean_str "\"\"x\"\"" ≠ clean_str_spec "\"\"x\"\"" ∧
    _clean_str "\"x" = "x" ∧
    clean_str_spec "\"x" = "\"x" := by decide

/-- C6 (amended): `_clean_str` strips all leading and all trailing
quote characters, matched or not: prepending or appending any single
or double quote never changes the result, and a string that neither
starts nor ends with a quote character is returned unchanged. -/
theorem C6_clean_str_amended (s : String) (c : Char) (hc : c ∈ quoteChars) :
    _clean_str ⟨c :: s.toList⟩ = _clean_str s ∧
    _clean_str ⟨s.toList ++ [c]⟩ = _clean_str s ∧
    ((∀ x, s.toList.head? = some x → x ∉ quoteChars) →
     (∀ x, s.toList.getLast? = some x → x ∉ quoteChars) →
     _clean_str s = s) := by
  refine ⟨?_, ?_, fun hh hl => ?_⟩
  · show String.mk (stripChars quoteChars (c :: s.toList)) = _clean_str s
    rw [stripChars_cons_of_mem _ _ _ hc]
    rfl
  · show String.mk (stripChars quoteChars (s.toList ++ [c])) = _clean_str s
    rw [stripChars_concat_of_mem _ _ _ hc]
    rfl
  · show String.mk (stripChars quoteChars s.toList) = s
    rw [stripChars_eq_self _ _ hh hl]
    cases s
    rfl

theorem C6_clean_str_amended_witness :
    _clean_str ⟨doubleQuote :: "ab".toList⟩ = _clean_str "ab" ∧
    _clean_str ⟨"ab".toList ++ [doubleQuote]⟩ = _clean_str "ab" ∧
    _clean_str "ab" = "ab" := by
  have h := C6_clean_str_amended "ab" doubleQuote (by decide)
  refine ⟨h.1, h.2.1, h.2.2 ?_ ?_⟩
  · intro x hx
    have hx2 : some (Char.ofNat 97) = some x := hx
    injection hx2 with hx3
    rw [← hx3]
    decide
  · intro x hx
    have hx2 : some (Char.ofNat 98) = some x := hx
    injection hx2 with hx3
    rw [← hx3]
    decide

/-- C8 counterexample: an HTTP response with a 4xx status is not
treated as a failure: `_download` returns its body text as the
resource content and caches it under the URL. -/
theorem C8_counterexample :
    _download (fun _ => .response 404 "Not Found") [] "u" =
      .ok ("Not Found", [("u", "Not Found")], 1) ∧
    ([("u", "Not Found")] : List (String × String)).lookup "u" = some "Not Found" :=
  ⟨rfl, rfl⟩

/-- C8 (amended): a raised network exception propagates out of
`_download` unchanged and uncaught, with nothing cached, and a missing
local file's I/O error propagates out of `_read_resp` unchanged; but a
non-success HTTP status is not treated as a failure — whatever body
text the server returned is cached and returned as the resource
content, whatever the status code. -/
theorem C8_transport_amended {ι : Type} (get : String → HttpResult)
    (cache : List (String × String)) (url : String) (st : Nat) (txt : String)
    (openRead : String → Except ι String) (path : String)
    (hc : cache.lookup url = none) :
    (get url = .failure → _download get cache url = .error ()) ∧
    (get url = .response st txt →
      _download get cache url = .ok (txt, dictSet cache url txt, 1)) ∧
    _read_resp_local openRead path = openRead path := by
  exact ⟨fun h => by simp [_download, hc, h], fun h => by simp [_download, hc, h], rfl⟩

theorem C8_transport_amended_witness :
    _download (fun _ => HttpResult.failure) [] "u" = .error () ∧
    _download (fun _ => .response 500 "E") [] "u" = .ok ("E", [("u", "E")], 1) := by
  have h1 := C8_transport_amended (fun _ => HttpResult.failure) [] "u" 500 "E"
    (fun _ => (.ok "" : Except Unit String)) "p" rfl
  have h2 := C8_transport_amended (fun _ => .response 500 "E") [] "u" 500 "E"
    (fun _ => (.ok "" : Except Unit String)) "p" rfl
  exact ⟨h1.1 rfl, h2.2.1 rfl⟩

/-- An option name occurring in the sorted option list occurs in the
raw option list. -/
theorem mem_fst_of_sorted (x : String) (opts : List (String × String))
    (l : List String) (h : sortStrs (opts.map Prod.fst) = l) (hx : x ∈ l) :
    x ∈ opts.map Prod.fst :=
  (mem_sortStrs x _).mp (h ▸ hx)

/-- An option name absent from the sorted option list is absent from
the raw option list. -/
theorem not_mem_fst_of_sorted (x : String) (opts : List (String × String))
    (l : List String) (h : sortStrs (opts.map Prod.fst) = l) (hx : x ∉ l) :
    x ∉ opts.map Prod.fst :=
  fun hm => hx (h ▸ (mem_sortStrs x _).mpr hm)

/-- `_choose` on a section with a path option. -/
theorem choose_path (join : String → String → String) (dirname : String → String)
    (opts : List (String × String)) (path np : String)
    (hmem : "path" ∈ opts.map Prod.fst) (hnp : opts.lookup "path" = some np) :
    _choose join dirname opts path = some (join (dirname path) (_clean_str np)) := by
  simp [_choose, hmem, hnp]

/-- `_choose` on a section without a path option but with a resp
option. -/
theorem choose_resp (join : String → String → String) (dirname : String → String)
    (opts : List (String × String)) (path np : String)
    (hnot : "path" ∉ opts.map Prod.fst) (hmem : "resp" ∈ opts.map Prod.fst)
    (hnp : opts.lookup "resp" = some np) :
    _choose join dirname opts path = some (join (dirname path) (_clean_str np)) := by
  simp [_choose, hnot, hmem, hnp]

/-- Full characterization of `parseSection` on the four recognized
non-main section shapes. -/
theorem parseSection_shapes (join : String → String → String)
    (dirname : String → String) (path : String) (d : NRLDictData)
    (sec : IniSection) (hmain : strLower sec.name ≠ "main") :
    (sortStrs (sec.opts.map Prod.fst) = ["path"] →
      ∃ np, sec.opts.lookup "path" = some np ∧
        parseSection join dirname path d sec = .ok
          ⟨dictSet d.entries sec.name
            (.pathRef (join (dirname path) (_clean_str np))), d.question⟩) ∧
    (sortStrs (sec.opts.map Prod.fst) = ["description", "resp"] →
      ∃ v rp, sec.opts.lookup "description" = some v ∧
        sec.opts.lookup "resp" = some rp ∧
        parseSection join dirname path d sec = .ok
          ⟨dictSet d.entries sec.name
            (.leaf (_clean_str v) (join (dirname path) (_clean_str rp))), d.question⟩) ∧
    (sortStrs (sec.opts.map Prod.fst) = ["descr", "resp"] →
      ∃ v rp, sec.opts.lookup "descr" = some v ∧
        sec.opts.lookup "resp" = some rp ∧
        parseSection join dirname path d sec = .ok
          ⟨dictSet d.entries sec.name
            (.leaf (_clean_str v) (join (dirname path) (_clean_str rp))), d.question⟩) ∧
    (sortStrs (sec.opts.map Prod.fst) = ["resp"] →
      ∃ rp, sec.opts.lookup "resp" = some rp ∧
        parseSection join dirname path d sec = .ok
          ⟨dictSet d.entries sec.name
            (.leaf (_clean_str "<no description>")
              (join (dirname path) (_clean_str rp))), d.question⟩) := by
  have hbm : (strLower sec.name == "main") = false := beq_eq_false_iff_ne.mpr hmain
  refine ⟨fun h => ?_, fun h => ?_, fun h => ?_, fun h => ?_⟩
  · have hmem : "path" ∈ sec.opts.map Prod.fst :=
      mem_fst_of_sorted _ _ _ h (by decide)
    obtain ⟨np, hnp⟩ := lookup_mem_of_mem_fst _ _ hmem
    have hch := choose_path join dirname sec.opts path np hmem hnp
    exact ⟨np, hnp, by simp [parseSection, hbm, h, hch]⟩
  · have hnot : "path" ∉ sec.opts.map Prod.fst :=
      not_mem_fst_of_sorted _ _ _ h (by decide)
    have hmemr : "resp" ∈ sec.opts.map Prod.fst :=
      mem_fst_of_sorted _ _ _ h (by decide)
    have hmemd : "description" ∈ sec.opts.map Prod.fst :=
      mem_fst_of_sorted _ _ _ h (by decide)
    obtain ⟨v, hv⟩ := lookup_mem_of_mem_fst _ _ hmemd
    obtain ⟨rp, hrp⟩ := lookup_mem_of_mem_fst _ _ hmemr
    have hch := choose_resp join dirname sec.opts path rp hnot hmemr hrp
    exact ⟨v, rp, hv, hrp, by simp [parseSection, hbm, h, hv, hch]⟩
  · have hnot : "path" ∉ sec.opts.map Prod.fst :=
      not_mem_fst_of_sorted _ _ _ h (by decide)
    have hmemr : "resp" ∈ sec.opts.map Prod.fst :=
      mem_fst_of_sorted _ _ _ h (by decide)
    have hmemd : "descr" ∈ sec.opts.map Prod.fst :=
      mem_fst_of_sorted _ _ _ h (by decide)
    obtain ⟨v, hv⟩ := lookup_mem_of_mem_fst _ _ hmemd
    obtain ⟨rp, hrp⟩ := lookup_mem_of_mem_fst _ _ hmemr
    have hch := choose_resp join dirname sec.opts path rp hnot hmemr hrp
    exact ⟨v, rp, hv, hrp, by simp [parseSection, hbm, h, hv, hch]⟩
  · have hnot : "path" ∉ sec.opts.map Prod.fst :=
      not_mem_fst_of_sorted _ _ _ h (by decide)
    have hmemr : "resp" ∈ sec.opts.map Prod.fst :=
      mem_fst_of_sorted _ _ _ h (by decide)
    obtain ⟨rp, hrp⟩ := lookup_mem_of_mem_fst _ _ hmemr
    have hch := choose_resp join dirname sec.opts path rp hnot hmemr hrp
    exact ⟨rp, hrp, by simp [parseSection, hbm, h, hch]⟩

/-- C7 counterexample: for a leaf section whose only option is
`resp`, the stored description is the literal `<no description>`, not
the placeholder `no description available` stated by the claim. -/
theorem C7_counterexample :
    parseSection (fun a b => a ++ "/" ++ b) (fun _ => "") "idx" ⟨[], none⟩
        ⟨"S", [("resp", "r")]⟩ =
      .ok ⟨[("S", .leaf "<no description>" "/r")], none⟩ ∧
    "<no description>" ≠ "no description available" :=
  ⟨rfl, by decide⟩

/-- C7 (amended): for every section classified as a Leaf, the stored
description is the quote-stripped `descr` value if that option is
present, else the quote-stripped `description` value if present, and
when the only option is `resp` it is the literal placeholder
`<no description>`. -/
theorem C7_leaf_description_amended (join : String → String → String)
    (dirname : String → String) (path : String) (d : NRLDictData)
    (sec : IniSection) (hmain : strLower sec.name ≠ "main") :
    (sortStrs (sec.opts.map Prod.fst) = ["descr", "resp"] →
      ∃ v rp, sec.opts.lookup "descr" = some v ∧
        parseSection join dirname path d sec = .ok
          ⟨dictSet d.entries sec.name (.leaf (_clean_str v) rp), d.question⟩) ∧
    (sortStrs (sec.opts.map Prod.fst) = ["description", "resp"] →
      ∃ v rp, sec.opts.lookup "description" = some v ∧
        parseSection join dirname path d sec = .ok
          ⟨dictSet d.entries sec.name (.leaf (_clean_str v) rp), d.question⟩) ∧
    (sortStrs (sec.opts.map Prod.fst) = ["resp"] →
      ∃ rp, parseSection join dirname path d sec = .ok
        ⟨dictSet d.entries sec.name (.leaf "<no description>" rp), d.question⟩) := by
  have hs := parseSection_shapes join dirname path d sec hmain
  refine ⟨fun h => ?_, fun h => ?_, fun h => ?_⟩
  · obtain ⟨v, rp, hv, _, hps⟩ := hs.2.2.1 h
    exact ⟨v, join (dirname path) (_clean_str rp), hv, hps⟩
  · obtain ⟨v, rp, hv, _, hps⟩ := hs.2.1 h
    exact ⟨v, join (dirname path) (_clean_str rp), hv, hps⟩
  · obtain ⟨rp, _, hps⟩ := hs.2.2.2 h
    have hnd : _clean_str "<no description>" = "<no description>" := by decide
    rw [hnd] at hps
    exact ⟨join (dirname path) (_clean_str rp), hps⟩

theorem C7_leaf_description_amended_witness :
    (∃ v rp,
      ([("descr", "\"D\""), ("resp", "r")] : List (String × String)).lookup "descr" =
        some v ∧
      parseSection (fun a b => a ++ "/" ++ b) (fun _ => "") "idx" ⟨[], none⟩
        ⟨"S", [("descr", "\"D\""), ("resp", "r")]⟩ =
        .ok ⟨dictSet [] "S" (.leaf (_clean_str v) rp), none⟩) ∧
    (∃ rp, parseSection (fun a b => a ++ "/" ++ b) (fun _ => "") "idx" ⟨[], none⟩
        ⟨"T", [("resp", "r")]⟩ =
        .ok ⟨dictSet [] "T" (.leaf "<no description>" rp), none⟩) := by
  have h1 := C7_leaf_description_amended (fun a b => a ++ "/" ++ b) (fun _ => "")
    "idx" ⟨[], none⟩ ⟨"S", [("descr", "\"D\""), ("resp", "r")]⟩ (by decide)
  have h2 := C7_leaf_description_amended (fun a b => a ++ "/" ++ b) (fun _ => "")
    "idx" ⟨[], none⟩ ⟨"T", [("resp", "r")]⟩ (by decide)
  exact ⟨h1.1 rfl, h2.2.2 rfl⟩

/-- C9: for a section named case-insensitively `main`, the option
sets `question` alone or `question` plus `detail` make the parsed
dict's question attribute the quote-stripped `question` value, and any
other option set raises the fatal unexpected-structure error naming
the index file's location. -/
theorem C9_main_question (join : String → String → String)
    (dirname : String → String) (path : String) (d : NRLDictData)
    (sec : IniSection) (q : String) (hmain : strLower sec.name = "main") :
    ((sortStrs (sec.opts.map Prod.fst) = ["question"] ∨
      sortStrs (sec.opts.map Prod.fst) = ["detail", "question"]) →
      sec.opts.lookup "question" = some q →
      parseSection join dirname path d sec = .ok ⟨d.entries, some (_clean_str q)⟩) ∧
    (¬(sortStrs (sec.opts.map Prod.fst) = ["question"] ∨
       sortStrs (sec.opts.map Prod.fst) = ["detail", "question"]) →
      parseSection join dirname path d sec =
        .error (.notImplemented ("Unexpected structure of NRL file " ++ path))) := by
  have hb : (strLower sec.name == "main") = true := beq_iff_eq.mpr hmain
  refine ⟨fun hopt hq => ?_, fun hopt => ?_⟩
  · rcases hopt with h | h <;> simp [parseSection, hb, h, hq]
  · push_neg at hopt
    obtain ⟨h1, h2⟩ := hopt
    simp [parseSection, hb, h1, h2]

theorem C9_main_question_witness :
    parseSection (fun a b => a ++ "/" ++ b) (fun _ => "d") "idx" ⟨[], none⟩
      ⟨"Main", [("question", "\"Q\"")]⟩ = .ok ⟨[], some "Q"⟩ ∧
    parseSection (fun a b => a ++ "/" ++ b) (fun _ => "d") "idx" ⟨[], none⟩
      ⟨"MAIN", [("foo", "1")]⟩ =
      .error (.notImplemented ("Unexpected structure of NRL file " ++ "idx")) := by
  have h1 := C9_main_question (fun a b => a ++ "/" ++ b) (fun _ => "d") "idx"
    ⟨[], none⟩ ⟨"Main", [("question", "\"Q\"")]⟩ "\"Q\"" (by decide)
  have h2 := C9_main_question (fun a b => a ++ "/" ++ b) (fun _ => "d") "idx"
    ⟨[], none⟩ ⟨"MAIN", [("foo", "1")]⟩ "x" (by decide)
  exact ⟨h1.1 (Or.inl rfl) rfl, h2.2 (by decide)⟩

/-- C10: `_choose` reads the section's path option if present, else
its resp option; for every section shape the parser classifies as a
sub-catalog reference or a Leaf, `_choose` returns the location joined
onto the directory of the current index file (the unbound-variable
branch is unreachable), and `parseSection` never raises the
unbound-variable error on any section. -/
theorem C10_choose_reachable (join : String → String → String)
    (dirname : String → String) (path : String) (d : NRLDictData)
    (sec : IniSection) :
    ((sortStrs (sec.opts.map Prod.fst) = ["path"] ∨
      sortStrs (sec.opts.map Prod.fst) = ["description", "resp"] ∨
      sortStrs (sec.opts.map Prod.fst) = ["descr", "resp"] ∨
      sortStrs (sec.opts.map Prod.fst) = ["resp"]) →
      ∃ np, (sec.opts.lookup "path" = some np ∨ sec.opts.lookup "resp" = some np) ∧
        _choose join dirname sec.opts path =
          some (join (dirname path) (_clean_str np))) ∧
    parseSection join dirname path d sec ≠ .error ParseErr.unboundLocal := by
  constructor
  · intro hopt
    rcases hopt with h | h | h | h
    · have hmem : "path" ∈ sec.opts.map Prod.fst :=
        mem_fst_of_sorted _ _ _ h (by decide)
      obtain ⟨np, hnp⟩ := lookup_mem_of_mem_fst _ _ hmem
      exact ⟨np, Or.inl hnp, choose_path join dirname sec.opts path np hmem hnp⟩
    · have hnot : "path" ∉ sec.opts.map Prod.fst :=
        not_mem_fst_of_sorted _ _ _ h (by decide)
      have hmem : "resp" ∈ sec.opts.map Prod.fst :=
        mem_fst_of_sorted _ _ _ h (by decide)
      obtain ⟨np, hnp⟩ := lookup_mem_of_mem_fst _ _ hmem
      exact ⟨np, Or.inr hnp, choose_resp join dirname sec.opts path np hnot hmem hnp⟩
    · have hnot : "path" ∉ sec.opts.map Prod.fst :=
        not_mem_fst_of_sorted _ _ _ h (by decide)
      have hmem : "resp" ∈ sec.opts.map Prod.fst :=
        mem_fst_of_sorted _ _ _ h (by decide)
      obtain ⟨np, hnp⟩ := lookup_mem_of_mem_fst _ _ hmem
      exact ⟨np, Or.inr hnp, choose_resp join dirname sec.opts path np hnot hmem hnp⟩
    · have hnot : "path" ∉ sec.opts.map Prod.fst :=
        not_mem_fst_of_sorted _ _ _ h (by decide)
      have hmem : "resp" ∈ sec.opts.map Prod.fst :=
        mem_fst_of_sorted _ _ _ h (by decide)
      obtain ⟨np, hnp⟩ := lookup_mem_of_mem_fst _ _ hmem
      exact ⟨np, Or.inr hnp, choose_resp join dirname sec.opts path np hnot hmem hnp⟩
  · intro hcon
    by_cases hm : strLower sec.name = "main"
    · have hb : (strLower sec.name == "main") = true := beq_iff_eq.mpr hm
      by_cases hopt : sortStrs (sec.opts.map Prod.fst) = ["question"] ∨
          sortStrs (sec.opts.map Prod.fst) = ["detail", "question"]
      · rcases hlq : sec.opts.lookup "question" with _ | q2 <;>
          rcases hopt with h | h <;> simp [parseSection, hb, h, hlq] at hcon
      · push_neg at hopt
        obtain ⟨h1, h2⟩ := hopt
        simp [parseSection, hb, h1, h2] at hcon
    · have hs := parseSection_shapes join dirname path d sec hm
      by_cases h1 : sortStrs (sec.opts.map Prod.fst) = ["path"]
      · obtain ⟨np, _, hps⟩ := hs.1 h1
        rw [hps] at hcon
        exact Except.noConfusion hcon
      · by_cases h2 : sortStrs (sec.opts.map Prod.fst) = ["description", "resp"]
        · obtain ⟨v, rp, _, _, hps⟩ := hs.2.1 h2
          rw [hps] at hcon
          exact Except.noConfusion hcon
        · by_cases h3 : sortStrs (sec.opts.map Prod.fst) = ["descr", "resp"]
          · obtain ⟨v, rp, _, _, hps⟩ := hs.2.2.1 h3
            rw [hps] at hcon
            exact Except.noConfusion hcon
          · by_cases h4 : sortStrs (sec.opts.map Prod.fst) = ["resp"]
            · obtain ⟨rp, _, hps⟩ := hs.2.2.2 h4
              rw [hps] at hcon
              exact Except.noConfusion hcon
            · have hbm : (strLower sec.name == "main") = false :=
                beq_eq_false_iff_ne.mpr hm
              simp [parseSection, hbm, h1, h2, h3, h4] at hcon

theorem C10_choose_reachable_witness :
    (∃ np, (([("path", "p1")] : List (String × String)).lookup "path" = some np ∨
        ([("path", "p1")] : List (String × String)).lookup "resp" = some np) ∧
      _choose (fun a b => a ++ "/" ++ b) (fun _ => "d") [("path", "p1")] "idx" =
        some ("d" ++ "/" ++ _clean_str np)) ∧
    parseSection (fun a b => a ++ "/" ++ b) (fun _ => "d") "idx" ⟨[], none⟩
      ⟨"S", [("path", "p1")]⟩ ≠ .error ParseErr.unboundLocal := by
  have h := C10_choose_reachable (fun a b => a ++ "/" ++ b) (fun _ => "d") "idx"
    ⟨[], none⟩ ⟨"S", [("path", "p1")]⟩
  exact ⟨h.1 (Or.inl rfl), h.2⟩

end NRLSpec
